import Mathlib

/-!
Verification development for the blockchain indexer core (blockchain.js).
The data model and operations are shallowly embedded: the ordered KV store
becomes a record of typed partial maps, an atomic batch becomes sequential
application of puts and dels, callback-style control flow becomes explicit
Except values, and the deferred event emission becomes the list of events the
call emits.  Identifiers as opaque 32-byte strings (txId, blockId, scId,
script, label) are modelled as natural numbers; monetary amounts and fee
rates as integers.
-/

/-- Record stored under the singleton tip key: blockId and height. -/
structure TipVal where
  blockId : Nat
  height : Nat
deriving DecidableEq

/-- Value of the transaction index: the height of the containing block. -/
structure TxVal where
  height : Nat
deriving DecidableEq

/-- Value of the txo index: output value and script. -/
structure TxoVal where
  value : Int
  script : Nat
deriving DecidableEq

/-- Value of the spent index: the spending transaction and input position. -/
structure SpentVal where
  txId : Nat
  vin : Nat
deriving DecidableEq

/-- Composite key of the script index: (scId, height, txId, vout). -/
structure ScKey where
  scId : Nat
  height : Nat
  txId : Nat
  vout : Nat
deriving DecidableEq

/-- Box summary of a fee-rate sample: q1, median, q3. -/
structure BoxR where
  q1 : Int
  median : Int
  q3 : Int
deriving DecidableEq

/-- Value of the fee index: box summary plus block size. -/
structure FeeVal where
  fees : BoxR
  size : Nat
deriving DecidableEq

/-- The embedded ordered KV store, one typed partial map per index prefix. -/
structure Store where
  tip : Option TipVal
  txIndex : Nat → Option TxVal
  txoIndex : Nat × Nat → Option TxoVal
  spentIndex : Nat × Nat → Option SpentVal
  scIndex : ScKey → Option Unit
  feeIndex : Nat → Option FeeVal
  lbIndex : Nat × Nat → Option Unit

/-- The empty store. -/
def Store.empty : Store :=
  ⟨none, fun _ => none, fun _ => none, fun _ => none, fun _ => none,
   fun _ => none, fun _ => none⟩

/-- Batch put on the tip key. -/
def Store.putTip (s : Store) (v : TipVal) : Store :=
  { s with tip := some v }

/-- Batch put on the transaction index. -/
def Store.putTx (s : Store) (k : Nat) (v : TxVal) : Store :=
  { s with txIndex := fun q => if q = k then some v else s.txIndex q }

/-- Batch del on the transaction index. -/
def Store.delTx (s : Store) (k : Nat) : Store :=
  { s with txIndex := fun q => if q = k then none else s.txIndex q }

/-- Batch put on the txo index. -/
def Store.putTxo (s : Store) (k : Nat × Nat) (v : TxoVal) : Store :=
  { s with txoIndex := fun q => if q = k then some v else s.txoIndex q }

/-- Batch del on the txo index. -/
def Store.delTxo (s : Store) (k : Nat × Nat) : Store :=
  { s with txoIndex := fun q => if q = k then none else s.txoIndex q }

/-- Batch put on the spent index. -/
def Store.putSpent (s : Store) (k : Nat × Nat) (v : SpentVal) : Store :=
  { s with spentIndex := fun q => if q = k then some v else s.spentIndex q }

/-- Batch del on the spent index. -/
def Store.delSpent (s : Store) (k : Nat × Nat) : Store :=
  { s with spentIndex := fun q => if q = k then none else s.spentIndex q }

/-- Batch put on the script index (a null value in the source). -/
def Store.putSc (s : Store) (k : ScKey) : Store :=
  { s with scIndex := fun q => if q = k then some () else s.scIndex q }

/-- Batch del on the script index. -/
def Store.delSc (s : Store) (k : ScKey) : Store :=
  { s with scIndex := fun q => if q = k then none else s.scIndex q }

/-- Batch put on the fee index. -/
def Store.putFee (s : Store) (h : Nat) (v : FeeVal) : Store :=
  { s with feeIndex := fun q => if q = h then some v else s.feeIndex q }

/-- Transaction input as delivered by the RPC collaborator. -/
structure Input where
  coinbase : Bool
  prevTxId : Nat
  vout : Nat
deriving DecidableEq

/-- Transaction output as delivered by the RPC collaborator. -/
structure Output where
  scId : Nat
  script : Nat
  value : Int
  vout : Nat
deriving DecidableEq

/-- Pre-parsed transaction as delivered by the RPC collaborator. -/
structure Tx where
  txId : Nat
  txBuffer : Nat
  vsize : Nat
  ins : List Input
  outs : List Output
deriving DecidableEq

/-- Pre-parsed block body as delivered by the RPC collaborator. -/
structure Block where
  height : Nat
  size : Nat
  previousblockhash : Nat
  nextblockhash : Nat
  transactions : List Tx
deriving DecidableEq

/-- Semantic events emitted through the event bus after a connect. -/
inductive Event
  | spent (prevTxId vout txId : Nat)
  | script (scId txId txBuffer : Nat)
  | transaction (txId txBuffer blockId : Nat)
  | block (blockId height : Nat)
deriving DecidableEq

/-- Error kinds surfaced by connect and disconnect. -/
inductive Err
  | rpc (msg : String)
  | heightMismatch
  | kvWrite
  | missingTxo (prevTxId vout : Nat)
deriving DecidableEq

/-- Box summary over the ascending fee-rate sample, exactly the index picks of
the source: the zero record for an empty sample, otherwise the entries at
floor(n/4), floor(n/2) and their sum (JS bitwise-or truncation on nonnegative
lengths is floor). -/
def box (data : List Int) : BoxR :=
  if data.length = 0 then ⟨0, 0, 0⟩
  else
    let quarter := data.length / 4
    let midpoint := data.length / 2
    ⟨data.getD quarter 0, data.getD midpoint 0, data.getD (midpoint + quarter) 0⟩

/-- Insertion into an ascending list, used to model the numeric sort of the
fee-rate sample. -/
def insertAsc (x : Int) : List Int → List Int
  | [] => [x]
  | y :: rest => if x ≤ y then x :: y :: rest else y :: insertAsc x rest

/-- Ascending numeric sort of the fee-rate sample. -/
def sortInts (l : List Int) : List Int :=
  l.foldr insertAsc []

/-- Decides whether a list of integers is sorted ascending. -/
def sortedAsc : List Int → Bool
  | [] => true
  | [_] => true
  | a :: b :: rest => decide (a ≤ b) && sortedAsc (b :: rest)

/-- Spent-index puts of a connect, walking the inputs with their positions:
non-coinbase inputs put a spend record keyed on the consumed outpoint. -/
def connectIns (txId : Nat) : Store → List Input → Nat → Store
  | s, [], _ => s
  | s, i :: rest, vin =>
    connectIns txId
      (if i.coinbase then s else s.putSpent (i.prevTxId, i.vout) ⟨txId, vin⟩)
      rest (vin + 1)

/-- Script-index and txo-index puts of a connect for the outputs of one
transaction, keyed on each output by its vout field. -/
def connectOuts (height txId : Nat) : Store → List Output → Store
  | s, [] => s
  | s, o :: rest =>
    connectOuts height txId
      ((s.putSc ⟨o.scId, height, txId, o.vout⟩).putTxo (txId, o.vout)
        ⟨o.value, o.script⟩)
      rest

/-- Primary-batch puts of a connect for a list of transactions: per
transaction the spend puts, then the output puts, then the tx-index put. -/
def connectTxs (height : Nat) : Store → List Tx → Store
  | s, [] => s
  | s, tx :: rest =>
    connectTxs height
      ((connectOuts height tx.txId (connectIns tx.txId s tx.ins 0) tx.outs).putTx
        tx.txId ⟨height⟩)
      rest

/-- Applying the committed primary batch of a connect: all per-transaction
puts followed by the tip put. -/
def connectApply (s : Store) (blockId height : Nat) (B : Block) : Store :=
  (connectTxs height s B.transactions).putTip ⟨blockId, height⟩

/-- Spent events queued while walking the inputs of one transaction. -/
def insSpentEvents (txId : Nat) : List Input → List Event
  | [] => []
  | i :: rest =>
    (if i.coinbase then [] else [.spent i.prevTxId i.vout txId]) ++
      insSpentEvents txId rest

/-- Events queued for one transaction: its spent events, then one script
event per output, then the transaction event. -/
def txEvents (blockId : Nat) (tx : Tx) : List Event :=
  insSpentEvents tx.txId tx.ins ++
    tx.outs.map (fun o => .script o.scId tx.txId tx.txBuffer) ++
    [.transaction tx.txId tx.txBuffer blockId]

/-- Per-transaction events of a list of transactions in block order. -/
def txsEvents (blockId : Nat) : List Tx → List Event
  | [] => []
  | tx :: rest => txEvents blockId tx ++ txsEvents blockId rest

/-- The full event queue of one connect: per-transaction events in block
order followed by the block event. -/
def connectEvents (blockId height : Nat) (B : Block) : List Event :=
  txsEvents blockId B.transactions ++ [.block blockId height]

/-- Sum of the resolved input values of a transaction in the second-order
pass, or the first missing outpoint; coinbase inputs are skipped when
building the lookup subtasks. -/
def resolveIns (s : Store) : List Input → Except (Nat × Nat) Int
  | [] => .ok 0
  | i :: rest =>
    if i.coinbase then resolveIns s rest
    else
      match s.txoIndex (i.prevTxId, i.vout) with
      | none => .error (i.prevTxId, i.vout)
      | some txo => (resolveIns s rest).map (fun acc => txo.value + acc)

/-- Fee rate contributed by one transaction: zero when any input is coinbase,
otherwise the floored quotient of fee by vsize using the resolved inputs. -/
def txFeeRate (s : Store) (tx : Tx) : Except (Nat × Nat) Int :=
  if tx.ins.any (fun i => i.coinbase) then .ok 0
  else
    match resolveIns s tx.ins with
    | .error k => .error k
    | .ok inAccum =>
      let outAccum := tx.outs.foldl (fun acc o => acc + o.value) 0
      .ok (Int.fdiv (inAccum - outAccum) (tx.vsize : Int))

/-- Fee-rate sample of a block in the second-order pass, or the first missing
outpoint. -/
def computeFeeRates (s : Store) : List Tx → Except (Nat × Nat) (List Int)
  | [] => .ok []
  | tx :: rest =>
    match txFeeRate s tx with
    | .error k => .error k
    | .ok r => (computeFeeRates s rest).map (fun l => r :: l)

/-- Second-order fee pass of a connect: resolve the fee-rate sample against
the store committed by the primary batch, then commit the fee-index put in a
second batch whose commit outcome is the c2ok parameter. -/
def connect2ndOrder (s : Store) (B : Block) (c2ok : Bool) : Except Err Store :=
  match computeFeeRates s B.transactions with
  | .error k => .error (.missingTxo k.1 k.2)
  | .ok feeRates =>
    if c2ok then
      .ok (s.putFee B.height ⟨box (sortInts feeRates), B.size⟩)
    else .error .kvWrite

/-- Result of one connect call: the store afterwards, the events actually
emitted (on the deferred tick), and the surfaced outcome carrying the next
block hash on success. -/
structure ConnectResult where
  store : Store
  emitted : List Event
  outcome : Except Err Nat

/-- Connect of a block at an expected height.  The fetch argument is the RPC
collaborator result; c1ok and c2ok are the commit outcomes of the primary and
fee batches.  The height gate precedes any write; on a primary commit failure
nothing is written and nothing is emitted; after a committed primary batch
the queued events are emitted on a deferred tick regardless of the outcome of
the second-order pass, exactly as the unconditional setTimeout of the
source. -/
def connect (s : Store) (blockId height : Nat) (fetch : Except String Block)
    (c1ok c2ok : Bool) : ConnectResult :=
  match fetch with
  | .error e => ⟨s, [], .error (.rpc e)⟩
  | .ok block =>
    if height = block.height then
      if c1ok then
        let s1 := connectApply s blockId height block
        match connect2ndOrder s1 block c2ok with
        | .error e => ⟨s1, connectEvents blockId height block, .error e⟩
        | .ok s2 => ⟨s2, connectEvents blockId height block, .ok block.nextblockhash⟩
      else ⟨s, [], .error .kvWrite⟩
    else ⟨s, [], .error .heightMismatch⟩

/-- Spent-index dels of a disconnect over the inputs of one transaction. -/
def disconnectIns : Store → List Input → Store
  | s, [] => s
  | s, i :: rest =>
    disconnectIns (if i.coinbase then s else s.delSpent (i.prevTxId, i.vout)) rest

/-- Script-index and txo-index dels of a disconnect for the outputs of one
transaction; the source keys these dels by the forEach position, not by the
vout field of the output. -/
def disconnectOuts (height txId : Nat) : Store → List Output → Nat → Store
  | s, [], _ => s
  | s, o :: rest, vout =>
    disconnectOuts height txId
      ((s.delSc ⟨o.scId, height, txId, vout⟩).delTxo (txId, vout)) rest (vout + 1)

/-- Batch dels of a disconnect for a list of transactions. -/
def disconnectTxs (height : Nat) : Store → List Tx → Store
  | s, [] => s
  | s, tx :: rest =>
    disconnectTxs height
      ((disconnectOuts height tx.txId (disconnectIns s tx.ins) tx.outs 0).delTx
        tx.txId)
      rest

/-- Applying the committed batch of a disconnect: all per-transaction dels
followed by the tip put, which keeps the height of the disconnected block. -/
def disconnectApply (s : Store) (B : Block) : Store :=
  (disconnectTxs B.height s B.transactions).putTip
    ⟨B.previousblockhash, B.height⟩

/-- Result of one disconnect call. -/
structure DisconnectResult where
  store : Store
  outcome : Except Err Unit

/-- Disconnect of the tip block: fetch the body, apply the del batch, put the
tip; no events are emitted. -/
def disconnect (s : Store) (blockId : Nat) (fetch : Except String Block)
    (cok : Bool) : DisconnectResult :=
  match fetch with
  | .error e => ⟨s, .error (.rpc e)⟩
  | .ok B =>
    if cok then ⟨disconnectApply s B, .ok ()⟩ else ⟨s, .error .kvWrite⟩

/-- Store after a connect of block B immediately followed by a disconnect of
the same block, with the RPC returning B both times and every commit
succeeding. -/
def roundTrip (s : Store) (blockId : Nat) (B : Block) : Store :=
  (disconnect (connect s blockId B.height (.ok B) true true).store blockId
    (.ok B) true).store

/-- Tip query: the blockId of the tip record, absent as a normal result. -/
def tipQ (s : Store) : Option Nat :=
  s.tip.map (fun t => t.blockId)

/-- Tip height query: absent as a normal result. -/
def tipHeightQ (s : Store) : Option Nat :=
  s.tip.map (fun t => t.height)

/-- Row returned by the fees query. -/
structure FeeRow where
  height : Nat
  fees : BoxR
  size : Nat
deriving DecidableEq

/-- Message of the failure of fees on a store without a tip record: the
source dereferences the height of the tip row with no absence guard, which
throws instead of returning a result. -/
def feesNoTip : String := "TypeError: cannot read height of missing tip"

/-- Fees query over the fee index, whose contents in ascending height order
are the feeRows argument.  Reading the tip is an unguarded dereference: with
no tip record the call fails instead of returning a result. -/
def fees (s : Store) (feeRows : List (Nat × FeeVal)) (n : Nat) :
    Except String (List FeeRow) :=
  match s.tip with
  | none => .error feesNoTip
  | some t =>
    let gteH : Int := (t.height : Int) - ((n : Int) - 1)
    .ok ((((feeRows.filter (fun e => decide (gteH ≤ (e.1 : Int)))).take n).map
      (fun e => ⟨e.1, e.2.fees, e.2.size⟩)))

/-- Script-index entry as decoded by the iterator. -/
structure ScEntry where
  scId : Nat
  height : Nat
  txId : Nat
  vout : Nat
deriving DecidableEq

/-- Row pushed by the script scans. -/
structure TxoRow where
  txId : Nat
  vout : Nat
  scId : Nat
  height : Nat
deriving DecidableEq

/-- Row built from a walked script-index entry, carrying the queried scId. -/
def toTxoRow (scId : Nat) (e : ScEntry) : TxoRow :=
  ⟨e.txId, e.vout, scId, e.height⟩

/-- Entries of the script index lying in the iterator range of the scans:
same scId, height at least the fromHeight lower bound and strictly below the
0xffffffff upper bound, in key order. -/
def scFilter (entries : List ScEntry) (scId h : Nat) : List ScEntry :=
  entries.filter (fun e => decide (e.scId = scId ∧ h ≤ e.height ∧ e.height < 4294967295))

/-- Limit specification of the list scan: absent, a single limit, or an
(offset, end) pair. -/
inductive LimitSpec
  | none
  | scalar (n : Nat)
  | pair (o e : Nat)
deriving DecidableEq

/-- Offset and iterator limit extracted from the limit specification exactly
as the prologue of the source: a pair yields its offset and the difference as
limit, and a falsy limit is replaced by the default 10000. -/
def listLimits : LimitSpec → Nat × Nat
  | .none => (0, 10000)
  | .scalar n => (0, if n = 0 then 10000 else n)
  | .pair o e => (o, if e - o = 0 then 10000 else e - o)

/-- Page position returned by the list scan. -/
structure Position where
  height : Nat
  offset : Nat
deriving DecidableEq

/-- Per-entry walk of the list scan: the counter is incremented first, an
entry whose count is strictly below the offset is discarded, and a kept entry
updates the running maximum height and is pushed.  Returns the final counter,
maximum height, and pushed rows. -/
def txosWalk (scId offset : Nat) :
    Nat → Nat → List TxoRow → List ScEntry → Nat × Nat × List TxoRow
  | count, maxHeight, results, [] => (count, maxHeight, results)
  | count, maxHeight, results, e :: rest =>
    if count + 1 < offset then txosWalk scId offset (count + 1) maxHeight results rest
    else
      txosWalk scId offset (count + 1) (max maxHeight e.height)
        (results ++ [toTxoRow scId e]) rest

/-- Internal list scan over the script index: walk the in-range entries up to
the iterator limit, discarding early entries per the offset convention.  The
returned position carries the fromHeight argument (the running maximum height
is computed but does not reach the returned position in the source) and the
count of entries walked. -/
def txosList (entries : List ScEntry) (scId height : Nat) (ls : LimitSpec) :
    List TxoRow × Position :=
  let off := (listLimits ls).1
  let lim := (listLimits ls).2
  let w := txosWalk scId off 0 height [] ((scFilter entries scId height).take lim)
  (w.2.2, ⟨height, w.1⟩)

/-- Insertion into the key set of a JS object: a new key is appended, an
existing key is left in place. -/
def insertUnique (l : List Nat) (x : Nat) : List Nat :=
  if x ∈ l then l else l ++ [x]

/-- Transaction-id scan: list the txos for the script, join each against the
spent index, and return the union of producing and spending transaction ids
together with the position of the list scan. -/
def transactionIdsByScriptId (s : Store) (entries : List ScEntry)
    (scId h : Nat) (ls : LimitSpec) : List Nat × Position :=
  let r := txosList entries scId h ls
  let spents := r.1.map (fun t => s.spentIndex (t.txId, t.vout))
  let set1 := spents.foldl
    (fun acc sp => match sp with
      | Option.none => acc
      | Option.some v => insertUnique acc v.txId) []
  let set2 := r.1.foldl (fun acc t => insertUnique acc t.txId) set1
  (set2, r.2)

/-- Assignment into the result map of txosByScriptId keyed by txId and vout,
with JS object semantics: an existing key is overwritten in place, a new key
is appended. -/
def upsertTxo (m : List ((Nat × Nat) × TxoRow)) (k : Nat × Nat) (v : TxoRow) :
    List ((Nat × Nat) × TxoRow) :=
  if m.any (fun p => decide (p.1 = k)) then
    m.map (fun p => if p.1 = k then (k, v) else p)
  else m ++ [(k, v)]

/-- Txo scan by script: walk the in-range entries up to the limit (a falsy
limit is replaced by the default 10000) into a map keyed by txId and vout. -/
def txosByScriptId (entries : List ScEntry) (scId h : Nat)
    (limit : Option Nat) : List ((Nat × Nat) × TxoRow) :=
  let lim := match limit with
    | Option.none => 10000
    | Option.some n => if n = 0 then 10000 else n
  ((scFilter entries scId h).take lim).foldl
    (fun m e => upsertTxo m (e.txId, e.vout) (toTxoRow scId e)) []

/-! Frame and characterization lemmas for the batch application functions. -/

/-- Key set of the spend puts and dels over the inputs of one transaction. -/
def insSpentKeys : List Input → List (Nat × Nat)
  | [] => []
  | i :: rest =>
    (if i.coinbase then [] else [(i.prevTxId, i.vout)]) ++ insSpentKeys rest

/-- Key set of the spend puts and dels of a block. -/
def spentKeys : List Tx → List (Nat × Nat)
  | [] => []
  | tx :: rest => insSpentKeys tx.ins ++ spentKeys rest

/-- Transaction-index keys touched by a block. -/
def txKeys (txs : List Tx) : List Nat :=
  txs.map (fun tx => tx.txId)

/-- Txo-index keys put by a connect for one transaction, keyed by the vout
field of each output. -/
def outVoutKeys (txId : Nat) (outs : List Output) : List (Nat × Nat) :=
  outs.map (fun o => (txId, o.vout))

/-- Txo-index keys put by a connect for a block. -/
def txoPutKeys : List Tx → List (Nat × Nat)
  | [] => []
  | tx :: rest => outVoutKeys tx.txId tx.outs ++ txoPutKeys rest

/-- Script-index keys put by a connect for one transaction. -/
def outScPutKeys (height txId : Nat) (outs : List Output) : List ScKey :=
  outs.map (fun o => ⟨o.scId, height, txId, o.vout⟩)

/-- Script-index keys put by a connect for a block. -/
def scPutKeys (height : Nat) : List Tx → List ScKey
  | [] => []
  | tx :: rest => outScPutKeys height tx.txId tx.outs ++ scPutKeys height rest

/-- Txo-index keys deleted by a disconnect for one transaction, keyed by the
forEach position. -/
def outIdxKeys (txId : Nat) : List Output → Nat → List (Nat × Nat)
  | [], _ => []
  | _ :: rest, v => (txId, v) :: outIdxKeys txId rest (v + 1)

/-- Txo-index keys deleted by a disconnect for a block. -/
def txoDelKeys : List Tx → List (Nat × Nat)
  | [] => []
  | tx :: rest => outIdxKeys tx.txId tx.outs 0 ++ txoDelKeys rest

/-- Script-index keys deleted by a disconnect for one transaction. -/
def outScIdxKeys (height txId : Nat) : List Output → Nat → List ScKey
  | [], _ => []
  | o :: rest, v => ⟨o.scId, height, txId, v⟩ :: outScIdxKeys height txId rest (v + 1)

/-- Script-index keys deleted by a disconnect for a block. -/
def scDelKeys (height : Nat) : List Tx → List ScKey
  | [] => []
  | tx :: rest => outScIdxKeys height tx.txId tx.outs 0 ++ scDelKeys height rest

/-- Decides whether the vout field of every output equals its position,
starting from a given position. -/
def outsPositional : List Output → Nat → Bool
  | [], _ => true
  | o :: rest, v => decide (o.vout = v) && outsPositional rest (v + 1)

/-- Decides whether in every transaction of a block the vout field of every
output equals its position in the output list, which holds for blocks
delivered by the chain RPC. -/
def blockVoutsPositional (B : Block) : Bool :=
  B.transactions.all (fun tx => outsPositional tx.outs 0)

/-- Decides whether every non-tip key a connect of the block would write is
absent in the store. -/
def untouchedBefore (s : Store) (B : Block) : Bool :=
  ((txKeys B.transactions).all (fun k => (s.txIndex k).isNone)) &&
  ((txoPutKeys B.transactions).all (fun k => (s.txoIndex k).isNone)) &&
  ((spentKeys B.transactions).all (fun k => (s.spentIndex k).isNone)) &&
  ((scPutKeys B.height B.transactions).all (fun k => (s.scIndex k).isNone))

theorem connectIns_txIndex (t : Nat) (ins : List Input) :
    ∀ (s : Store) (v : Nat), (connectIns t s ins v).txIndex = s.txIndex := by
  induction ins with
  | nil => intro s v; rfl
  | cons i rest ih =>
    intro s v
    simp only [connectIns]
    rw [ih]
    split <;> rfl

theorem connectIns_txoIndex (t : Nat) (ins : List Input) :
    ∀ (s : Store) (v : Nat), (connectIns t s ins v).txoIndex = s.txoIndex := by
  induction ins with
  | nil => intro s v; rfl
  | cons i rest ih =>
    intro s v
    simp only [connectIns]
    rw [ih]
    split <;> rfl

theorem connectIns_scIndex (t : Nat) (ins : List Input) :
    ∀ (s : Store) (v : Nat), (connectIns t s ins v).scIndex = s.scIndex := by
  induction ins with
  | nil => intro s v; rfl
  | cons i rest ih =>
    intro s v
    simp only [connectIns]
    rw [ih]
    split <;> rfl

theorem connectIns_feeIndex (t : Nat) (ins : List Input) :
    ∀ (s : Store) (v : Nat), (connectIns t s ins v).feeIndex = s.feeIndex := by
  induction ins with
  | nil => intro s v; rfl
  | cons i rest ih =>
    intro s v
    simp only [connectIns]
    rw [ih]
    split <;> rfl

theorem connectIns_spent (t : Nat) (ins : List Input) :
    ∀ (s : Store) (v : Nat) (k : Nat × Nat), k ∉ insSpentKeys ins →
      (connectIns t s ins v).spentIndex k = s.spentIndex k := by
  induction ins with
  | nil => intro s v k _; rfl
  | cons i rest ih =>
    intro s v k hk
    have hk2 : k ∉ insSpentKeys rest := by
      intro hm
      exact hk (by simp only [insSpentKeys, List.mem_append]; exact Or.inr hm)
    simp only [connectIns]
    rw [ih _ _ _ hk2]
    by_cases hc : i.coinbase
    · simp [hc]
    · have hne : k ≠ (i.prevTxId, i.vout) := by
        intro he
        exact hk (by simp [insSpentKeys, hc, he])
      simp [hc, Store.putSpent, hne]

theorem connectOuts_txIndex (h t : Nat) (outs : List Output) :
    ∀ (s : Store), (connectOuts h t s outs).txIndex = s.txIndex := by
  induction outs with
  | nil => intro s; rfl
  | cons o rest ih => intro s; simp only [connectOuts]; rw [ih]; rfl

theorem connectOuts_spent (h t : Nat) (outs : List Output) :
    ∀ (s : Store), (connectOuts h t s outs).spentIndex = s.spentIndex := by
  induction outs with
  | nil => intro s; rfl
  | cons o rest ih => intro s; simp only [connectOuts]; rw [ih]; rfl

theorem connectOuts_feeIndex (h t : Nat) (outs : List Output) :
    ∀ (s : Store), (connectOuts h t s outs).feeIndex = s.feeIndex := by
  induction outs with
  | nil => intro s; rfl
  | cons o rest ih => intro s; simp only [connectOuts]; rw [ih]; rfl

theorem connectOuts_txo (h t : Nat) (outs : List Output) :
    ∀ (s : Store) (k : Nat × Nat), k ∉ outVoutKeys t outs →
      (connectOuts h t s outs).txoIndex k = s.txoIndex k := by
  induction outs with
  | nil => intro s k _; rfl
  | cons o rest ih =>
    intro s k hk
    have hk2 : k ∉ outVoutKeys t rest := by
      intro hm
      exact hk (by simp only [outVoutKeys, List.map_cons, List.mem_cons]
                   exact Or.inr hm)
    have hne : k ≠ (t, o.vout) := by
      intro he
      exact hk (by simp [outVoutKeys, he])
    simp only [connectOuts]
    rw [ih _ _ hk2]
    simp [Store.putSc, Store.putTxo, hne]

theorem connectOuts_sc (h t : Nat) (outs : List Output) :
    ∀ (s : Store) (k : ScKey), k ∉ outScPutKeys h t outs →
      (connectOuts h t s outs).scIndex k = s.scIndex k := by
  induction outs with
  | nil => intro s k _; rfl
  | cons o rest ih =>
    intro s k hk
    have hk2 : k ∉ outScPutKeys h t rest := by
      intro hm
      exact hk (by simp only [outScPutKeys, List.map_cons, List.mem_cons]
                   exact Or.inr hm)
    have hne : k ≠ ⟨o.scId, h, t, o.vout⟩ := by
      intro he
      exact hk (by simp [outScPutKeys, he])
    simp only [connectOuts]
    rw [ih _ _ hk2]
    simp [Store.putSc, Store.putTxo, hne]

theorem connectTxs_feeIndex (h : Nat) (txs : List Tx) :
    ∀ (s : Store), (connectTxs h s txs).feeIndex = s.feeIndex := by
  induction txs with
  | nil => intro s; rfl
  | cons tx rest ih =>
    intro s
    simp only [connectTxs]
    rw [ih]
    show (Store.putTx _ _ _).feeIndex = _
    simp only [Store.putTx]
    rw [show ((connectOuts h tx.txId (connectIns tx.txId s tx.ins 0) tx.outs)).feeIndex
          = s.feeIndex from by rw [connectOuts_feeIndex, connectIns_feeIndex]]

theorem connectTxs_tx (h : Nat) (txs : List Tx) :
    ∀ (s : Store) (k : Nat), k ∉ txKeys txs →
      (connectTxs h s txs).txIndex k = s.txIndex k := by
  induction txs with
  | nil => intro s k _; rfl
  | cons tx rest ih =>
    intro s k hk
    have hk2 : k ∉ txKeys rest := by
      intro hm
      exact hk (by simp only [txKeys, List.map_cons, List.mem_cons]; exact Or.inr hm)
    have hne : k ≠ tx.txId := by
      intro he
      exact hk (by simp [txKeys, he])
    simp only [connectTxs]
    rw [ih _ _ hk2]
    show (if k = tx.txId then some (⟨h⟩ : TxVal) else _) = _
    rw [if_neg hne, connectOuts_txIndex, connectIns_txIndex]

theorem connectTxs_spent (h : Nat) (txs : List Tx) :
    ∀ (s : Store) (k : Nat × Nat), k ∉ spentKeys txs →
      (connectTxs h s txs).spentIndex k = s.spentIndex k := by
  induction txs with
  | nil => intro s k _; rfl
  | cons tx rest ih =>
    intro s k hk
    have hk1 : k ∉ insSpentKeys tx.ins := by
      intro hm
      exact hk (by simp only [spentKeys, List.mem_append]; exact Or.inl hm)
    have hk2 : k ∉ spentKeys rest := by
      intro hm
      exact hk (by simp only [spentKeys, List.mem_append]; exact Or.inr hm)
    simp only [connectTxs]
    rw [ih _ _ hk2]
    show (Store.putTx _ _ _).spentIndex k = _
    simp only [Store.putTx]
    rw [connectOuts_spent]
    exact connectIns_spent _ _ _ _ _ hk1

theorem connectTxs_txo (h : Nat) (txs : List Tx) :
    ∀ (s : Store) (k : Nat × Nat), k ∉ txoPutKeys txs →
      (connectTxs h s txs).txoIndex k = s.txoIndex k := by
  induction txs with
  | nil => intro s k _; rfl
  | cons tx rest ih =>
    intro s k hk
    have hk1 : k ∉ outVoutKeys tx.txId tx.outs := by
      intro hm
      exact hk (by simp only [txoPutKeys, List.mem_append]; exact Or.inl hm)
    have hk2 : k ∉ txoPutKeys rest := by
      intro hm
      exact hk (by simp only [txoPutKeys, List.mem_append]; exact Or.inr hm)
    simp only [connectTxs]
    rw [ih _ _ hk2]
    show (Store.putTx _ _ _).txoIndex k = _
    simp only [Store.putTx]
    rw [connectOuts_txo _ _ _ _ _ hk1, connectIns_txoIndex]

theorem connectTxs_sc (h : Nat) (txs : List Tx) :
    ∀ (s : Store) (k : ScKey), k ∉ scPutKeys h txs →
      (connectTxs h s txs).scIndex k = s.scIndex k := by
  induction txs with
  | nil => intro s k _; rfl
  | cons tx rest ih =>
    intro s k hk
    have hk1 : k ∉ outScPutKeys h tx.txId tx.outs := by
      intro hm
      exact hk (by simp only [scPutKeys, List.mem_append]; exact Or.inl hm)
    have hk2 : k ∉ scPutKeys h rest := by
      intro hm
      exact hk (by simp only [scPutKeys, List.mem_append]; exact Or.inr hm)
    simp only [connectTxs]
    rw [ih _ _ hk2]
    show (Store.putTx _ _ _).scIndex k = _
    simp only [Store.putTx]
    rw [connectOuts_sc _ _ _ _ _ hk1, connectIns_scIndex]

theorem disconnectIns_txIndex (ins : List Input) :
    ∀ (s : Store), (disconnectIns s ins).txIndex = s.txIndex := by
  induction ins with
  | nil => intro s; rfl
  | cons i rest ih =>
    intro s
    simp only [disconnectIns]
    rw [ih]
    split <;> rfl

theorem disconnectIns_txoIndex (ins : List Input) :
    ∀ (s : Store), (disconnectIns s ins).txoIndex = s.txoIndex := by
  induction ins with
  | nil => intro s; rfl
  | cons i rest ih =>
    intro s
    simp only [disconnectIns]
    rw [ih]
    split <;> rfl

theorem disconnectIns_scIndex (ins : List Input) :
    ∀ (s : Store), (disconnectIns s ins).scIndex = s.scIndex := by
  induction ins with
  | nil => intro s; rfl
  | cons i rest ih =>
    intro s
    simp only [disconnectIns]
    rw [ih]
    split <;> rfl

theorem disconnectIns_feeIndex (ins : List Input) :
    ∀ (s : Store), (disconnectIns s ins).feeIndex = s.feeIndex := by
  induction ins with
  | nil => intro s; rfl
  | cons i rest ih =>
    intro s
    simp only [disconnectIns]
    rw [ih]
    split <;> rfl

theorem disconnectIns_spent (ins : List Input) :
    ∀ (s : Store) (k : Nat × Nat),
      (disconnectIns s ins).spentIndex k =
        if k ∈ insSpentKeys ins then none else s.spentIndex k := by
  induction ins with
  | nil => intro s k; simp [disconnectIns, insSpentKeys]
  | cons i rest ih =>
    intro s k
    simp only [disconnectIns]
    rw [ih]
    by_cases hc : i.coinbase
    · simp [hc, insSpentKeys]
    · by_cases hm : k ∈ insSpentKeys rest
      · simp [hc, hm, insSpentKeys]
      · by_cases he : k = (i.prevTxId, i.vout)
        · simp [hc, hm, he, insSpentKeys, Store.delSpent]
        · simp [hc, hm, he, insSpentKeys, Store.delSpent]

theorem disconnectOuts_txIndex (h t : Nat) (outs : List Output) :
    ∀ (s : Store) (v : Nat), (disconnectOuts h t s outs v).txIndex = s.txIndex := by
  induction outs with
  | nil => intro s v; rfl
  | cons o rest ih => intro s v; simp only [disconnectOuts]; rw [ih]; rfl

theorem disconnectOuts_spent (h t : Nat) (outs : List Output) :
    ∀ (s : Store) (v : Nat), (disconnectOuts h t s outs v).spentIndex = s.spentIndex := by
  induction outs with
  | nil => intro s v; rfl
  | cons o rest ih => intro s v; simp only [disconnectOuts]; rw [ih]; rfl

theorem disconnectOuts_feeIndex (h t : Nat) (outs : List Output) :
    ∀ (s : Store) (v : Nat), (disconnectOuts h t s outs v).feeIndex = s.feeIndex := by
  induction outs with
  | nil => intro s v; rfl
  | cons o rest ih => intro s v; simp only [disconnectOuts]; rw [ih]; rfl

theorem disconnectOuts_txo (h t : Nat) (outs : List Output) :
    ∀ (s : Store) (v : Nat) (k : Nat × Nat),
      (disconnectOuts h t s outs v).txoIndex k =
        if k ∈ outIdxKeys t outs v then none else s.txoIndex k := by
  induction outs with
  | nil => intro s v k; simp [disconnectOuts, outIdxKeys]
  | cons o rest ih =>
    intro s v k
    simp only [disconnectOuts]
    rw [ih]
    by_cases hm : k ∈ outIdxKeys t rest (v + 1)
    · simp [hm, outIdxKeys]
    · by_cases he : k = (t, v)
      · simp [hm, he, outIdxKeys, Store.delSc, Store.delTxo]
      · simp [hm, he, outIdxKeys, Store.delSc, Store.delTxo]

theorem disconnectOuts_sc (h t : Nat) (outs : List Output) :
    ∀ (s : Store) (v : Nat) (k : ScKey),
      (disconnectOuts h t s outs v).scIndex k =
        if k ∈ outScIdxKeys h t outs v then none else s.scIndex k := by
  induction outs with
  | nil => intro s v k; simp [disconnectOuts, outScIdxKeys]
  | cons o rest ih =>
    intro s v k
    simp only [disconnectOuts]
    rw [ih]
    by_cases hm : k ∈ outScIdxKeys h t rest (v + 1)
    · simp [hm, outScIdxKeys]
    · by_cases he : k = (⟨o.scId, h, t, v⟩ : ScKey)
      · simp [hm, he, outScIdxKeys, Store.delSc, Store.delTxo]
      · simp [hm, he, outScIdxKeys, Store.delSc, Store.delTxo]

theorem disconnectTxs_feeIndex (h : Nat) (txs : List Tx) :
    ∀ (s : Store), (disconnectTxs h s txs).feeIndex = s.feeIndex := by
  induction txs with
  | nil => intro s; rfl
  | cons tx rest ih =>
    intro s
    simp only [disconnectTxs]
    rw [ih]
    show (Store.delTx _ _).feeIndex = _
    simp only [Store.delTx]
    rw [disconnectOuts_feeIndex, disconnectIns_feeIndex]

theorem disconnectTxs_tx (h : Nat) (txs : List Tx) :
    ∀ (s : Store) (k : Nat),
      (disconnectTxs h s txs).txIndex k =
        if k ∈ txKeys txs then none else s.txIndex k := by
  induction txs with
  | nil => intro s k; simp [disconnectTxs, txKeys]
  | cons tx rest ih =>
    intro s k
    simp only [disconnectTxs]
    rw [ih]
    have hbase : ∀ (s2 : Store),
        ((disconnectOuts h tx.txId (disconnectIns s2 tx.ins) tx.outs 0).delTx
          tx.txId).txIndex k =
        if k = tx.txId then none else s2.txIndex k := by
      intro s2
      show (if k = tx.txId then none else _) = _
      rw [disconnectOuts_txIndex, disconnectIns_txIndex]
    rw [hbase]
    by_cases hm : k ∈ txKeys rest
    · rw [if_pos hm,
        if_pos (show k ∈ txKeys (tx :: rest) from List.mem_cons_of_mem tx.txId hm)]
    · by_cases he : k = tx.txId
      · rw [if_neg hm, if_pos he,
          if_pos (show k ∈ txKeys (tx :: rest) by rw [he]; exact List.mem_cons_self _ _)]
      · rw [if_neg hm, if_neg he, if_neg (fun hc => by
          rcases List.mem_cons.mp hc with h1 | h2
          · exact he h1
          · exact hm h2)]

theorem disconnectTxs_spent (h : Nat) (txs : List Tx) :
    ∀ (s : Store) (k : Nat × Nat),
      (disconnectTxs h s txs).spentIndex k =
        if k ∈ spentKeys txs then none else s.spentIndex k := by
  induction txs with
  | nil => intro s k; simp [disconnectTxs, spentKeys]
  | cons tx rest ih =>
    intro s k
    simp only [disconnectTxs]
    rw [ih]
    have hbase : ∀ (s2 : Store),
        ((disconnectOuts h tx.txId (disconnectIns s2 tx.ins) tx.outs 0).delTx
          tx.txId).spentIndex k =
        if k ∈ insSpentKeys tx.ins then none else s2.spentIndex k := by
      intro s2
      show (disconnectOuts h tx.txId (disconnectIns s2 tx.ins) tx.outs 0).spentIndex k = _
      rw [disconnectOuts_spent, disconnectIns_spent]
    rw [hbase]
    by_cases hm : k ∈ spentKeys rest
    · simp [hm, spentKeys]
    · by_cases he : k ∈ insSpentKeys tx.ins
      · simp [hm, he, spentKeys]
      · simp [hm, he, spentKeys]

theorem disconnectTxs_txo (h : Nat) (txs : List Tx) :
    ∀ (s : Store) (k : Nat × Nat),
      (disconnectTxs h s txs).txoIndex k =
        if k ∈ txoDelKeys txs then none else s.txoIndex k := by
  induction txs with
  | nil => intro s k; simp [disconnectTxs, txoDelKeys]
  | cons tx rest ih =>
    intro s k
    simp only [disconnectTxs]
    rw [ih]
    have hbase : ∀ (s2 : Store),
        ((disconnectOuts h tx.txId (disconnectIns s2 tx.ins) tx.outs 0).delTx
          tx.txId).txoIndex k =
        if k ∈ outIdxKeys tx.txId tx.outs 0 then none else s2.txoIndex k := by
      intro s2
      show (disconnectOuts h tx.txId (disconnectIns s2 tx.ins) tx.outs 0).txoIndex k = _
      rw [disconnectOuts_txo]
      rw [disconnectIns_txoIndex]
    rw [hbase]
    by_cases hm : k ∈ txoDelKeys rest
    · simp [hm, txoDelKeys]
    · by_cases he : k ∈ outIdxKeys tx.txId tx.outs 0
      · simp [hm, he, txoDelKeys]
      · simp [hm, he, txoDelKeys]

theorem disconnectTxs_sc (h : Nat) (txs : List Tx) :
    ∀ (s : Store) (k : ScKey),
      (disconnectTxs h s txs).scIndex k =
        if k ∈ scDelKeys h txs then none else s.scIndex k := by
  induction txs with
  | nil => intro s k; simp [disconnectTxs, scDelKeys]
  | cons tx rest ih =>
    intro s k
    simp only [disconnectTxs]
    rw [ih]
    have hbase : ∀ (s2 : Store),
        ((disconnectOuts h tx.txId (disconnectIns s2 tx.ins) tx.outs 0).delTx
          tx.txId).scIndex k =
        if k ∈ outScIdxKeys h tx.txId tx.outs 0 then none else s2.scIndex k := by
      intro s2
      show (disconnectOuts h tx.txId (disconnectIns s2 tx.ins) tx.outs 0).scIndex k = _
      rw [disconnectOuts_sc]
      rw [disconnectIns_scIndex]
    rw [hbase]
    by_cases hm : k ∈ scDelKeys h rest
    · simp [hm, scDelKeys]
    · by_cases he : k ∈ outScIdxKeys h tx.txId tx.outs 0
      · simp [hm, he, scDelKeys]
      · simp [hm, he, scDelKeys]

theorem outIdxKeys_eq (t : Nat) (outs : List Output) :
    ∀ (v : Nat), outsPositional outs v = true →
      outIdxKeys t outs v = outVoutKeys t outs := by
  induction outs with
  | nil => intro v _; rfl
  | cons o rest ih =>
    intro v hp
    simp only [outsPositional, Bool.and_eq_true, decide_eq_true_eq] at hp
    simp only [outIdxKeys, outVoutKeys, List.map_cons]
    rw [ih _ hp.2, hp.1]
    rfl

theorem outScIdxKeys_eq (h t : Nat) (outs : List Output) :
    ∀ (v : Nat), outsPositional outs v = true →
      outScIdxKeys h t outs v = outScPutKeys h t outs := by
  induction outs with
  | nil => intro v _; rfl
  | cons o rest ih =>
    intro v hp
    simp only [outsPositional, Bool.and_eq_true, decide_eq_true_eq] at hp
    simp only [outScIdxKeys, outScPutKeys, List.map_cons]
    rw [ih _ hp.2, hp.1]
    rfl

theorem txoDelKeys_eq (txs : List Tx)
    (hp : txs.all (fun tx => outsPositional tx.outs 0) = true) :
    txoDelKeys txs = txoPutKeys txs := by
  induction txs with
  | nil => rfl
  | cons tx rest ih =>
    simp only [List.all_cons, Bool.and_eq_true] at hp
    simp only [txoDelKeys, txoPutKeys]
    rw [outIdxKeys_eq _ _ _ hp.1, ih hp.2]

theorem scDelKeys_eq (h : Nat) (txs : List Tx)
    (hp : txs.all (fun tx => outsPositional tx.outs 0) = true) :
    scDelKeys h txs = scPutKeys h txs := by
  induction txs with
  | nil => rfl
  | cons tx rest ih =>
    simp only [List.all_cons, Bool.and_eq_true] at hp
    simp only [scDelKeys, scPutKeys]
    rw [outScIdxKeys_eq _ _ _ _ hp.1, ih hp.2]

theorem txosWalk_count (scId off : Nat) (l : List ScEntry) :
    ∀ (c m : Nat) (r : List TxoRow), (txosWalk scId off c m r l).1 = c + l.length := by
  induction l with
  | nil => intro c m r; simp [txosWalk]
  | cons e rest ih =>
    intro c m r
    simp only [txosWalk]
    split
    · rw [ih]; simp only [List.length_cons]; omega
    · rw [ih]; simp only [List.length_cons]; omega

theorem txosWalk_results (scId off : Nat) (l : List ScEntry) :
    ∀ (c m : Nat) (r : List TxoRow),
      (txosWalk scId off c m r l).2.2 =
        r ++ (l.drop (off - 1 - c)).map (toTxoRow scId) := by
  induction l with
  | nil => intro c m r; simp [txosWalk]
  | cons e rest ih =>
    intro c m r
    simp only [txosWalk]
    split
    · rename_i hlt
      rw [ih]
      have harith : off - 1 - c = (off - 1 - (c + 1)) + 1 := by omega
      rw [harith, List.drop_succ_cons]
    · rename_i hge
      rw [ih]
      have harith : off - 1 - c = 0 := by omega
      have harith2 : off - 1 - (c + 1) = 0 := by omega
      rw [harith, harith2]
      simp [toTxoRow]

/-! Claim theorems. -/

/-- Concrete empty block at height 1 with previous hash 7, used to exhibit
the tip height kept by disconnect. -/
def cxBlockDisc : Block := ⟨1, 10, 7, 0, []⟩

/-- Claim C1, counterexample: a successful disconnect of a block of height 1
with previousblockhash 7 leaves the tip record at height 1, not at the
claimed height 0. -/
theorem disconnect_tip_keeps_height_cex :
    (disconnect Store.empty 9 (.ok cxBlockDisc) true).outcome = .ok () ∧
    cxBlockDisc.height = 1 ∧ cxBlockDisc.previousblockhash = 7 ∧
    (disconnect Store.empty 9 (.ok cxBlockDisc) true).store.tip ≠ some ⟨7, 0⟩ ∧
    (disconnect Store.empty 9 (.ok cxBlockDisc) true).store.tip = some ⟨7, 1⟩ :=
  ⟨rfl, rfl, rfl, by decide, rfl⟩

/-- Claim C1, amended: after every successful disconnect of a block whose
body has height h and previous hash p, the tip record equals (p, h): the
blockId is rolled back to the previous hash but the height is kept at the
height of the disconnected block, not decremented to h minus 1. -/
theorem disconnect_tip_amended (s : Store) (bid : Nat) (B : Block) :
    (disconnect s bid (.ok B) true).store.tip =
      some ⟨B.previousblockhash, B.height⟩ ∧
    (disconnect s bid (.ok B) true).outcome = .ok () :=
  ⟨rfl, rfl⟩

/-- Concrete block whose only transaction spends an outpoint absent from the
store, so the second-order pass fails with a missing txo. -/
def cxBlockMiss : Block := ⟨0, 100, 0, 9, [⟨1, 11, 100, [⟨false, 99, 0⟩], []⟩]⟩

/-- Claim C2, counterexample: a connect whose second-order pass fails with a
missing txo still emits the queued spent, transaction and block events on
the deferred tick, so the claim that no events are emitted when connect
fails is false. -/
theorem connect_emits_despite_second_order_failure :
    (connect Store.empty 8 0 (.ok cxBlockMiss) true true).outcome =
      .error (.missingTxo 99 0) ∧
    (connect Store.empty 8 0 (.ok cxBlockMiss) true true).emitted =
      [.spent 99 0 1, .transaction 1 11 8, .block 8 0] ∧
    (connect Store.empty 8 0 (.ok cxBlockMiss) true true).emitted ≠ [] :=
  ⟨rfl, rfl, by decide⟩

/-- Claim C2, amended: the queued events of a connect are emitted exactly
when the fetch succeeded, the height gate passed, and the primary batch
committed; an RPC failure, a height mismatch, or a primary commit failure
emits nothing, while a failure of the second-order pass (missing txo or fee
batch commit error) does not suppress emission. -/
theorem connect_emission_amended (s : Store) (bid h : Nat)
    (fetch : Except String Block) (c1 c2 : Bool) :
    (connect s bid h fetch c1 c2).emitted =
      match fetch with
      | .error _ => []
      | .ok B => if h = B.height ∧ c1 = true then connectEvents bid h B else [] := by
  cases fetch with
  | error e => rfl
  | ok B =>
    by_cases hh : h = B.height
    · subst hh
      by_cases hc : c1 = true
      · subst hc
        cases hco : connect2ndOrder (connectApply s bid B.height B) B c2 with
        | error e => simp [connect, hco]
        | ok s2 => simp [connect, hco]
      · have hc0 : c1 = false := by revert hc; cases c1 <;> simp
        subst hc0
        simp [connect]
    · simp [connect, hh]

/-- Claim C6: for a fee-rate sample sorted ascending, the box summary is the
zero record when the sample is empty, and otherwise picks the entries at
floor(n/4), floor(n/2) and floor(n/2) plus floor(n/4), an index that is
always in range; for a singleton sample all three picks are the single
entry. -/
theorem box_summary_indices (sample : List Int) (hs : sortedAsc sample = true) :
    (sample.length = 0 → box sample = ⟨0, 0, 0⟩) ∧
    (sample.length ≠ 0 →
      sample.length / 2 + sample.length / 4 < sample.length ∧
      box sample =
        ⟨sample.getD (sample.length / 4) 0, sample.getD (sample.length / 2) 0,
          sample.getD (sample.length / 2 + sample.length / 4) 0⟩) ∧
    (sample.length = 1 →
      box sample = ⟨sample.getD 0 0, sample.getD 0 0, sample.getD 0 0⟩) := by
  refine ⟨?_, ?_, ?_⟩
  · intro h0
    simp [box, h0]
  · intro hne
    have h1 : 1 ≤ sample.length := Nat.one_le_iff_ne_zero.mpr hne
    exact ⟨by omega, by simp [box, hne]⟩
  · intro h1
    simp [box, h1]

/-- Claim C6, witness: the theorem instantiated at the sorted singleton
sample containing 5. -/
theorem box_summary_indices_witness :
    sortedAsc [(5 : Int)] = true ∧
    (([(5 : Int)].length = 0 → box [(5 : Int)] = ⟨0, 0, 0⟩) ∧
     ([(5 : Int)].length ≠ 0 →
       [(5 : Int)].length / 2 + [(5 : Int)].length / 4 < [(5 : Int)].length ∧
       box [(5 : Int)] =
         ⟨[(5 : Int)].getD ([(5 : Int)].length / 4) 0,
          [(5 : Int)].getD ([(5 : Int)].length / 2) 0,
          [(5 : Int)].getD ([(5 : Int)].length / 2 + [(5 : Int)].length / 4) 0⟩) ∧
     ([(5 : Int)].length = 1 →
       box [(5 : Int)] = ⟨[(5 : Int)].getD 0 0, [(5 : Int)].getD 0 0, [(5 : Int)].getD 0 0⟩)) :=
  ⟨by decide, box_summary_indices [(5 : Int)] (by decide)⟩

/-- Claim C7, counterexample: on the sorted four-entry sample 0, 1, 2, 3 the
box summary is (1, 2, 3), the entries at indices 1, 2 and 3, not (0, 2, 2)
as claimed. -/
theorem box_four_cex :
    sortedAsc [(0 : Int), 1, 2, 3] = true ∧
    box [(0 : Int), 1, 2, 3] = ⟨1, 2, 3⟩ ∧
    box [(0 : Int), 1, 2, 3] ≠ ⟨0, 2, 2⟩ := by
  refine ⟨by decide, rfl, by decide⟩

/-- Claim C7, amended: for a fee-rate sample of length 4 sorted ascending as
a, b, c, d the box summary is (b, c, d), the picks at indices 1 = floor(4/4),
2 = floor(4/2) and 3 = 2 + 1. -/
theorem box_four_amended (a b c d : Int) (hab : a ≤ b) (hbc : b ≤ c)
    (hcd : c ≤ d) : box [a, b, c, d] = ⟨b, c, d⟩ := by simp [box]

/-- Claim C7, witness: the amended theorem instantiated at the sorted sample
0, 1, 2, 3. -/
theorem box_four_witness :
    ((0 : Int) ≤ 1 ∧ (1 : Int) ≤ 2 ∧ (2 : Int) ≤ 3) ∧
    box [(0 : Int), 1, 2, 3] = ⟨1, 2, 3⟩ :=
  ⟨by decide, box_four_amended 0 1 2 3 (by decide) (by decide) (by decide)⟩

/-- Claim C8: when the fetched body has a height different from the expected
height, connect fails with the height mismatch error, the store is returned
unchanged with no key written, and no event is emitted. -/
theorem connect_height_mismatch (s : Store) (bid h : Nat) (B : Block)
    (c1 c2 : Bool) (hne : h ≠ B.height) :
    connect s bid h (.ok B) c1 c2 = ⟨s, [], .error .heightMismatch⟩ := by
  simp [connect, hne]

/-- Concrete block body at height 6, for the height mismatch witness. -/
def cxBlockHigh : Block := ⟨6, 0, 0, 0, []⟩

/-- Claim C8, witness: connecting at expected height 5 while the RPC returns
a body of height 6 changes nothing and emits nothing. -/
theorem connect_height_mismatch_witness :
    (5 : Nat) ≠ cxBlockHigh.height ∧
    connect Store.empty 4 5 (.ok cxBlockHigh) true true =
      ⟨Store.empty, [], .error .heightMismatch⟩ :=
  ⟨by decide, connect_height_mismatch Store.empty 4 5 cxBlockHigh true true (by decide)⟩

/-- Claim C9: on a store without a tip record the fees query does not return
a result but fails on the unguarded dereference of the tip height, while the
tip and tip height queries on the same store return the absent value as a
normal result of a total function. -/
theorem fees_requires_tip (s : Store) (feeRows : List (Nat × FeeVal)) (n : Nat)
    (h : s.tip = none) :
    fees s feeRows n = .error feesNoTip ∧ tipQ s = none ∧ tipHeightQ s = none := by
  refine ⟨?_, ?_, ?_⟩ <;> simp [fees, tipQ, tipHeightQ, h]

/-- Claim C9, witness: the theorem instantiated at the empty store. -/
theorem fees_requires_tip_witness :
    Store.empty.tip = none ∧
    (fees Store.empty [] 3 = .error feesNoTip ∧ tipQ Store.empty = none ∧
      tipHeightQ Store.empty = none) :=
  ⟨rfl, fees_requires_tip Store.empty [] 3 rfl⟩

/-- Claim C10: a scalar limit of zero, like an omitted limit, is replaced by
the default 10000 in both the internal list scan and the txo scan, so no
caller obtains a scan bounded to zero entries. -/
theorem limit_zero_defaults (entries : List ScEntry) (scId h : Nat) :
    txosList entries scId h (.scalar 0) = txosList entries scId h (.scalar 10000) ∧
    txosList entries scId h .none = txosList entries scId h (.scalar 10000) ∧
    txosByScriptId entries scId h (some 0) = txosByScriptId entries scId h (some 10000) ∧
    txosByScriptId entries scId h none = txosByScriptId entries scId h (some 10000) :=
  ⟨rfl, rfl, rfl, rfl⟩

/-- Concrete single in-range script-index entry at height 20, above the
query lower bound of height 10. -/
def cxEntriesHigh : List ScEntry := [⟨5, 20, 1, 0⟩]

/-- Claim C4, counterexample: scanning from height 10 walks one entry of
height 20, and the running maximum height reaches 20, yet the returned
position carries the fromHeight argument 10, not the maximum height 20 the
claim demands. -/
theorem txosList_position_height_cex :
    (txosWalk 5 0 0 10 [] ((scFilter cxEntriesHigh 5 10).take 10000)).2.1 = 20 ∧
    (txosList cxEntriesHigh 5 10 .none).2 = ⟨10, 1⟩ ∧
    (txosList cxEntriesHigh 5 10 .none).2 ≠ ⟨20, 1⟩ :=
  ⟨rfl, rfl, by decide⟩

/-- Claim C4, amended: the position returned by the internal list scan, and
passed through unchanged by the transaction-id scan, is the fromHeight
argument paired with the count of entries walked; the maximum height seen is
computed but never returned. -/
theorem txosList_position_amended (s : Store) (entries : List ScEntry)
    (scId h : Nat) (ls : LimitSpec) :
    (txosList entries scId h ls).2 =
      ⟨h, ((scFilter entries scId h).take (listLimits ls).2).length⟩ ∧
    (transactionIdsByScriptId s entries scId h ls).2 =
      ⟨h, ((scFilter entries scId h).take (listLimits ls).2).length⟩ := by
  have h1 : (txosList entries scId h ls).2 =
      ⟨h, ((scFilter entries scId h).take (listLimits ls).2).length⟩ := by
    simp only [txosList]
    rw [txosWalk_count]
    rw [Nat.zero_add]
  exact ⟨h1, h1⟩

/-- Concrete pair of in-range script-index entries for the pager
counterexample. -/
def cxEntriesPair : List ScEntry := [⟨5, 10, 1, 0⟩, ⟨5, 11, 2, 0⟩]

/-- Claim C5, counterexample: with limitSpec the pair (1, 2) the scan should,
per the claim, discard the first entry and return the second; instead it
walks one entry (the iterator limit is end minus offset) and keeps it, since
the pre-incremented counter 1 is not strictly below the offset 1. -/
theorem txosList_pair_offset_cex :
    (txosList cxEntriesPair 5 0 (.pair 1 2)).1 = [⟨1, 0, 5, 10⟩] ∧
    (txosList cxEntriesPair 5 0 (.pair 1 2)).1 ≠ [⟨2, 0, 5, 11⟩] :=
  ⟨rfl, by decide⟩

/-- Claim C5, amended: with limitSpec a pair (offset, end) with offset at
most end, the scan walks at most end minus offset in-range entries (10000
when that difference is zero) and discards exactly those walked entries
whose one-based position is strictly below offset, that is the first
offset minus 1 of them, returning the rest in order. -/
theorem txosList_pair_amended (entries : List ScEntry) (scId h o e : Nat)
    (hoe : o ≤ e) :
    (txosList entries scId h (.pair o e)).1 =
      (((scFilter entries scId h).take ((listLimits (.pair o e)).2)).drop (o - 1)).map
        (toTxoRow scId) := by
  simp only [txosList]
  rw [txosWalk_results]
  simp [listLimits]

/-- Claim C5, witness: the amended theorem instantiated at the concrete
two-entry list with the pair (1, 2). -/
theorem txosList_pair_witness :
    (1 : Nat) ≤ 2 ∧
    (txosList cxEntriesPair 5 0 (.pair 1 2)).1 =
      (((scFilter cxEntriesPair 5 0).take ((listLimits (.pair 1 2)).2)).drop 0).map
        (toTxoRow 5) :=
  ⟨by decide, txosList_pair_amended cxEntriesPair 5 0 1 2 (by decide)⟩

/-- Fee-index entry at the height of block B in the store left by a connect
of B, the value the second-order pass wrote. -/
def connectFeeVal (s : Store) (bid : Nat) (B : Block) : Option FeeVal :=
  (connect s bid B.height (.ok B) true true).store.feeIndex B.height

/-- Concrete prior store whose tip is (7, 0). -/
def cxStoreRt : Store := { Store.empty with tip := some ⟨7, 0⟩ }

/-- Concrete coinbase-only block at height 1 with previous hash 7. -/
def cxBlockRt : Block := ⟨1, 50, 7, 9, [⟨1, 0, 100, [⟨true, 0, 0⟩], [⟨5, 3, 50, 0⟩]⟩]⟩

/-- Claim C3, counterexample: connecting the concrete block at height 1 on a
store whose tip is (7, 0) and then disconnecting it succeeds, yet the tip, a
key touched by the block, is not restored to its prior value: its height
stays at 1. -/
theorem roundtrip_tip_not_restored_cex :
    cxStoreRt.tip = some ⟨7, 0⟩ ∧
    (connect cxStoreRt 8 cxBlockRt.height (.ok cxBlockRt) true true).outcome =
      .ok cxBlockRt.nextblockhash ∧
    (roundTrip cxStoreRt 8 cxBlockRt).tip = some ⟨7, 1⟩ ∧
    (roundTrip cxStoreRt 8 cxBlockRt).tip ≠ cxStoreRt.tip :=
  ⟨rfl, rfl, rfl, by decide⟩

/-- Claim C3, amended: for a block whose outputs are keyed by their position
and whose touched transaction, txo, spent and script keys are absent
beforehand, a successful connect followed by a disconnect of the same block
restores the transaction, txo, spent and script indexes exactly to their
prior contents; the fee-index entry written at the height of the block is
retained and every other fee-index key is unchanged; the tip however is not
restored but left at (previousblockhash, height of the block). -/
theorem connect_disconnect_roundtrip_amended (s : Store) (bid : Nat) (B : Block)
    (hv : blockVoutsPositional B = true)
    (habs : untouchedBefore s B = true)
    (hok : (connect s bid B.height (.ok B) true true).outcome = .ok B.nextblockhash) :
    (roundTrip s bid B).txIndex = s.txIndex ∧
    (roundTrip s bid B).txoIndex = s.txoIndex ∧
    (roundTrip s bid B).spentIndex = s.spentIndex ∧
    (roundTrip s bid B).scIndex = s.scIndex ∧
    (roundTrip s bid B).tip = some ⟨B.previousblockhash, B.height⟩ ∧
    (connectFeeVal s bid B).isSome = true ∧
    (roundTrip s bid B).feeIndex =
      fun h2 => if h2 = B.height then connectFeeVal s bid B else s.feeIndex h2 := by
  have habs' := habs
  simp only [untouchedBefore, Bool.and_eq_true, List.all_eq_true,
    Option.isNone_iff_eq_none] at habs'
  obtain ⟨⟨⟨hA1, hA2⟩, hA3⟩, hA4⟩ := habs'
  have hvp : B.transactions.all (fun tx => outsPositional tx.outs 0) = true := hv
  cases hfr : computeFeeRates (connectApply s bid B.height B) B.transactions with
  | error k =>
    exfalso
    simp [connect, connect2ndOrder, hfr] at hok
  | ok rates =>
    have hstore : (connect s bid B.height (.ok B) true true).store =
        (connectApply s bid B.height B).putFee B.height
          ⟨box (sortInts rates), B.size⟩ := by
      simp [connect, connect2ndOrder, hfr]
    have hF : roundTrip s bid B =
        disconnectApply
          ((connectApply s bid B.height B).putFee B.height
            ⟨box (sortInts rates), B.size⟩) B := by
      show (disconnect (connect s bid B.height (.ok B) true true).store bid
        (.ok B) true).store = _
      rw [hstore]
      rfl
    have hfee : connectFeeVal s bid B =
        some (⟨box (sortInts rates), B.size⟩ : FeeVal) := by
      show (connect s bid B.height (.ok B) true true).store.feeIndex B.height = _
      rw [hstore]
      show (if B.height = B.height then some _ else _) = _
      rw [if_pos rfl]
    refine ⟨?_, ?_, ?_, ?_, ?_, ?_, ?_⟩
    · rw [hF]
      show (disconnectTxs B.height
        ((connectApply s bid B.height B).putFee B.height
          ⟨box (sortInts rates), B.size⟩) B.transactions).txIndex = s.txIndex
      funext k
      rw [disconnectTxs_tx]
      by_cases hk : k ∈ txKeys B.transactions
      · rw [if_pos hk, hA1 k hk]
      · rw [if_neg hk]
        exact connectTxs_tx _ _ _ _ hk
    · rw [hF]
      show (disconnectTxs B.height
        ((connectApply s bid B.height B).putFee B.height
          ⟨box (sortInts rates), B.size⟩) B.transactions).txoIndex = s.txoIndex
      funext k
      rw [disconnectTxs_txo, txoDelKeys_eq _ hvp]
      by_cases hk : k ∈ txoPutKeys B.transactions
      · rw [if_pos hk, hA2 k hk]
      · rw [if_neg hk]
        exact connectTxs_txo _ _ _ _ hk
    · rw [hF]
      show (disconnectTxs B.height
        ((connectApply s bid B.height B).putFee B.height
          ⟨box (sortInts rates), B.size⟩) B.transactions).spentIndex = s.spentIndex
      funext k
      rw [disconnectTxs_spent]
      by_cases hk : k ∈ spentKeys B.transactions
      · rw [if_pos hk, hA3 k hk]
      · rw [if_neg hk]
        exact connectTxs_spent _ _ _ _ hk
    · rw [hF]
      show (disconnectTxs B.height
        ((connectApply s bid B.height B).putFee B.height
          ⟨box (sortInts rates), B.size⟩) B.transactions).scIndex = s.scIndex
      funext k
      rw [disconnectTxs_sc, scDelKeys_eq _ _ hvp]
      by_cases hk : k ∈ scPutKeys B.height B.transactions
      · rw [if_pos hk, hA4 k hk]
      · rw [if_neg hk]
        exact connectTxs_sc _ _ _ _ hk
    · rw [hF]
      rfl
    · rw [hfee]
      rfl
    · rw [hF]
      funext h2
      show (disconnectTxs B.height
        ((connectApply s bid B.height B).putFee B.height
          ⟨box (sortInts rates), B.size⟩) B.transactions).feeIndex h2 = _
      rw [disconnectTxs_feeIndex]
      show (if h2 = B.height then some (⟨box (sortInts rates), B.size⟩ : FeeVal)
        else (connectTxs B.height s B.transactions).feeIndex h2) = _
      by_cases hh : h2 = B.height
      · rw [if_pos hh, if_pos hh, hfee]
      · rw [if_neg hh, if_neg hh, connectTxs_feeIndex]

/-- Claim C3, witness: the amended theorem instantiated at the concrete
store with tip (7, 0) and the concrete coinbase-only block at height 1. -/
theorem connect_disconnect_roundtrip_witness :
    (roundTrip cxStoreRt 8 cxBlockRt).txIndex = cxStoreRt.txIndex ∧
    (roundTrip cxStoreRt 8 cxBlockRt).txoIndex = cxStoreRt.txoIndex ∧
    (roundTrip cxStoreRt 8 cxBlockRt).spentIndex = cxStoreRt.spentIndex ∧
    (roundTrip cxStoreRt 8 cxBlockRt).scIndex = cxStoreRt.scIndex ∧
    (roundTrip cxStoreRt 8 cxBlockRt).tip =
      some ⟨cxBlockRt.previousblockhash, cxBlockRt.height⟩ ∧
    (connectFeeVal cxStoreRt 8 cxBlockRt).isSome = true ∧
    (roundTrip cxStoreRt 8 cxBlockRt).feeIndex =
      fun h2 => if h2 = cxBlockRt.height then connectFeeVal cxStoreRt 8 cxBlockRt
        else cxStoreRt.feeIndex h2 :=
  connect_disconnect_roundtrip_amended cxStoreRt 8 cxBlockRt (by decide) (by decide) rfl
